import Mathlib

/-!
Shallow embedding of the EVM vanity-address generator (`src/index.js`).

JavaScript strings are modelled as `List Char` (`JStr`): the program only
manipulates them as sequences of characters (startsWith, endsWith,
toLowerCase, regex character-class tests), and the values that reach those
operations are ASCII hex strings and `0x`-addresses.

The embedding covers:
* pattern validation and construction (lines 112-127 of `src/index.js`);
* the worker loop (lines 210-238), run over a finite stream of provider
  outputs, i.e. the first `n` iterations of the infinite loop;
* the coordinator's message handling (lines 156-207), where `process.exit(0)`
  in the `found` branch is modelled by an absorbing state: once a winner is
  recorded no further message is ever handled;
* the statistics computations (lines 180-188), with JavaScript IEEE-754
  division modelled exactly over ℚ plus explicit Infinity/NaN, and the
  probability formula modelled over ℝ.
-/

namespace EvmVanity

/-- JavaScript strings, modelled as sequences of characters. -/
abbrev JStr := List Char

/-- Character class of the validation regex `[0-9a-fA-F]` (src/index.js line 118). -/
def isHexNibble (c : Char) : Bool :=
  ('0' ≤ c && c ≤ '9') || ('a' ≤ c && c ≤ 'f') || ('A' ≤ c && c ≤ 'F')

/-- Test of the anchored regex `/^[0-9a-fA-F]+$/` (src/index.js line 118):
the string is nonempty and every character is a hex nibble. -/
def hexTest (s : JStr) : Bool :=
  !s.isEmpty && s.all isHexNibble

/-- Model of JavaScript `String.prototype.toLowerCase` on one character,
restricted to ASCII. Every character this program ever lowercases is an ASCII
hex digit or part of a `0x`-address, so the restriction is faithful on all
reachable inputs. -/
def lowerChar (c : Char) : Char :=
  match c with
  | 'A' => 'a' | 'B' => 'b' | 'C' => 'c' | 'D' => 'd' | 'E' => 'e' | 'F' => 'f'
  | 'G' => 'g' | 'H' => 'h' | 'I' => 'i' | 'J' => 'j' | 'K' => 'k' | 'L' => 'l'
  | 'M' => 'm' | 'N' => 'n' | 'O' => 'o' | 'P' => 'p' | 'Q' => 'q' | 'R' => 'r'
  | 'S' => 's' | 'T' => 't' | 'U' => 'u' | 'V' => 'v' | 'W' => 'w' | 'X' => 'x'
  | 'Y' => 'y' | 'Z' => 'z'
  | c => c

/-- Model of JavaScript `String.prototype.toLowerCase` (ASCII fragment). -/
def toLowerStr (s : JStr) : JStr := s.map lowerChar

/-- Validation errors of pattern construction (spec `ValidationError`): the
two distinct fatal `console.error` + `process.exit(1)` branches at
src/index.js lines 114-121. -/
inductive ValidationError where
  | empty
  | invalidHex
deriving DecidableEq

/-- Pattern spec as handed to every worker via `workerData`
(src/index.js lines 148-152). Field `pre` models `prefix`, `suf` models
`suffix`. -/
structure PatternSpec where
  pre : JStr
  suf : JStr
  isCaseSensitive : Bool
deriving DecidableEq

/-- Pattern construction pipeline (src/index.js lines 112-125): `preRaw` and
`sufRaw` are `config.prefix` and `config.suffix`. JavaScript's falsy test
`!fullPattern` is emptiness of the concatenation; then the hex regex test;
then case normalization and the prefix-only strip of a leading `0x`
(`targetPrefix.startsWith('0x') ? targetPrefix.slice(2) : targetPrefix`). An
`error` result models printing the corresponding message and exiting before
any worker is started. -/
def buildPattern (preRaw sufRaw : JStr) (caseSensitive : Bool) :
    Except ValidationError PatternSpec :=
  let fullPattern := preRaw ++ sufRaw
  if fullPattern.isEmpty then .error .empty
  else if !hexTest fullPattern then .error .invalidHex
  else
    let targetPre := if caseSensitive then preRaw else toLowerStr preRaw
    let targetSuf := if caseSensitive then sufRaw else toLowerStr sufRaw
    let cleanPre := if (['0', 'x'] : JStr).isPrefixOf targetPre then targetPre.drop 2
      else targetPre
    .ok { pre := cleanPre, suf := targetSuf, isCaseSensitive := caseSensitive }

deriving instance DecidableEq for Except

/-- Derived difficulty metric (src/index.js lines 127-128):
`Math.pow(16, cleanPrefix.length + targetSuffix.length)`. -/
noncomputable def difficulty (p : PatternSpec) : ℝ :=
  (16 : ℝ) ^ (p.pre.length + p.suf.length)

/-- A keypair as returned by the cryptographic provider
`privateKeyToAccount(generatePrivateKey())` (src/index.js lines 216-217). -/
structure Account where
  address : JStr
  pk : JStr
deriving DecidableEq

/-- Messages posted on the worker-to-coordinator channel via
`parentPort.postMessage` (src/index.js lines 226-235). -/
inductive Msg where
  | found (address : JStr) (pk : JStr) (attempts : Nat)
  | tick (count : Nat)
deriving DecidableEq

/-- Normalized address used for the match comparison (src/index.js line 218):
`isCaseSensitive ? account.address : account.address.toLowerCase()`. -/
def normAddr (p : PatternSpec) (a : Account) : JStr :=
  if p.isCaseSensitive then a.address else toLowerStr a.address

/-- Worker match decision on a given (already normalized) address string
(src/index.js lines 220-221 and 225): JavaScript's `!prefix` truthiness test
is emptiness; then `addr.startsWith('0x' + prefix)` and `addr.endsWith(suffix)`,
conjoined. -/
def rawDecision (p : PatternSpec) (addr : JStr) : Bool :=
  (p.pre.isEmpty || (('0' :: 'x' :: p.pre).isPrefixOf addr)) &&
    (p.suf.isEmpty || (p.suf.isSuffixOf addr))

/-- Worker match decision for a provider account: the raw decision applied to
the normalized address (src/index.js lines 218-225). -/
def decision (p : PatternSpec) (a : Account) : Bool :=
  rawDecision p (normAddr p a)

/-- Batch size design constant (src/index.js line 212). -/
def BATCH_SIZE : Nat := 2000

/-- One iteration of the worker loop body (src/index.js lines 215-237),
threading the local counter `localCount` and returning the messages posted by
this iteration, in order: `localCount++`; if the decision holds, post the
`found` message with the original `account.address`, the generated `pk` and
the current counter; then, if the counter reached a batch boundary, post a
`tick` of `BATCH_SIZE` and reset the counter to zero. -/
def workerStep (p : PatternSpec) (c : Nat) (a : Account) : List Msg × Nat :=
  let c1 := c + 1
  let foundMsgs := if decision p a then [Msg.found a.address a.pk c1] else []
  if c1 % BATCH_SIZE = 0 then (foundMsgs ++ [Msg.tick BATCH_SIZE], 0)
  else (foundMsgs, c1)

/-- The worker loop (src/index.js lines 215-238) run over a finite stream of
provider outputs: the first `accounts.length` iterations of the infinite
`while (true)` loop, starting from local counter `c`. Returns all posted
messages in order together with the final counter. The loop itself never
stops; it only ceases when the main thread terminates the worker, which cuts
the stream at a finite point. -/
def runWorker (p : PatternSpec) (c : Nat) : List Account → List Msg × Nat
  | [] => ([], c)
  | a :: rest =>
    let s1 := workerStep p c a
    let s2 := runWorker p s1.2 rest
    (s1.1 ++ s2.1, s2.2)

/-- Coordinator-owned mutable state (src/index.js lines 141-144): the
cumulative `totalCount` and the accepted winner, `none` while the process is
still running. A recorded winner models `process.exit(0)` having been called. -/
structure CoordState where
  totalCount : Nat
  winner : Option (JStr × JStr × Nat)
deriving DecidableEq

/-- Initial coordinator state (src/index.js lines 141-144). -/
def initCoord : CoordState := { totalCount := 0, winner := none }

/-- Coordinator handling of one drained channel message
(src/index.js lines 156-207). After the `found` branch runs, the process has
exited (`process.exit(0)` at line 173), so a state carrying a winner is
absorbing: later messages are never handled. The second component lists the
`on_found` output events fired while handling this message. -/
def coordStep (st : CoordState) (m : Msg) : CoordState × List (JStr × JStr × Nat) :=
  match st.winner with
  | some _ => (st, [])
  | none =>
    match m with
    | .found addr pk attempts =>
      ({ totalCount := st.totalCount + attempts, winner := some (addr, pk, attempts) },
        [(addr, pk, attempts)])
    | .tick n => ({ st with totalCount := st.totalCount + n }, [])

/-- The coordinator draining a sequence of channel messages in arrival order
(the Node event loop delivers `worker.on('message')` callbacks sequentially),
collecting every `on_found` event fired. -/
def runCoord (st : CoordState) : List Msg → CoordState × List (JStr × JStr × Nat)
  | [] => (st, [])
  | m :: rest =>
    let s1 := coordStep st m
    let s2 := runCoord s1.1 rest
    (s2.1, s1.2 ++ s2.2)

/-- Predicate selecting terminal `found` messages. -/
def isFound : Msg → Bool
  | .found _ _ _ => true
  | .tick _ => false

/-- Payload of a terminal `found` message. -/
def foundData : Msg → Option (JStr × JStr × Nat)
  | .found a pk n => some (a, pk, n)
  | .tick _ => none

/-- Address and private key carried by a terminal `found` message. -/
def foundAddrPk : Msg → Option (JStr × JStr)
  | .found a pk _ => some (a, pk)
  | .tick _ => none

/-- Spec-side match predicate, written from the claim's words: the match holds
iff (the prefix is empty OR the normalized address starts with the
concatenation of the two characters `0x` and the stored prefix) AND (the
suffix is empty OR the normalized address ends with the stored suffix).
Starts-with and ends-with are the mathematical notions `List.IsPrefix`
(`∃ t, pat ++ t = addr`) and `List.IsSuffix` (`∃ t, t ++ pat = addr`),
independent of the boolean implementation used by the worker. -/
def matchSpec (p : PatternSpec) (a : Account) : Prop :=
  (p.pre = [] ∨ ('0' :: 'x' :: p.pre) <+: normAddr p a) ∧
  (p.suf = [] ∨ p.suf <:+ normAddr p a)

/-- Idealized JavaScript number: finite values are carried exactly as
rationals; the IEEE-754 special values Infinity, -Infinity and NaN are
explicit. Rounding of finite results is not modelled; it is irrelevant to the
division-by-zero behaviour studied below. -/
inductive JsNum where
  | fin (q : ℚ)
  | inf
  | negInf
  | nan
deriving DecidableEq

/-- JavaScript division semantics on idealized numbers (IEEE-754 `/`): a
finite value divided by zero is NaN when the dividend is zero and ±Infinity
otherwise; finite by nonzero finite is exact. Combinations involving the
special values are collapsed to NaN here, since the program below only ever
divides finite values. -/
def jsDiv : JsNum → JsNum → JsNum
  | .fin a, .fin b =>
    if b = 0 then (if a = 0 then .nan else if 0 < a then .inf else .negInf)
    else .fin (a / b)
  | _, _ => .nan

/-- Speed computation in the tick handler (src/index.js lines 180-181):
`speed = totalCount / elapsed` under JavaScript division semantics, where
`elapsed` is the elapsed time in seconds. The code contains no special case
for a zero elapsed time. -/
def speedOf (totalCount : Nat) (elapsedSeconds : ℚ) : JsNum :=
  jsDiv (.fin (totalCount : ℚ)) (.fin elapsedSeconds)

/-- Probability display value (src/index.js lines 183-184):
`prob = 1 - Math.exp(-totalCount / difficulty)`, then
`if (prob > 0.9999) prob = 0.9999`. Modelled over the real numbers. -/
noncomputable def probOf (d : ℝ) (totalCount : Nat) : ℝ :=
  if 1 - Real.exp (-((totalCount : ℝ) / d)) > 0.9999 then 0.9999
  else 1 - Real.exp (-((totalCount : ℝ) / d))

/-- Helper: the hex validation rejects any inputs whose concatenation contains
a non-hex character. -/
theorem buildPattern_invalidHex_of_mem {preRaw sufRaw : JStr} {cs : Bool} {ch : Char}
    (hmem : ch ∈ preRaw ++ sufRaw) (hch : isHexNibble ch = false) :
    buildPattern preRaw sufRaw cs = .error .invalidHex := by
  have hne : preRaw ++ sufRaw ≠ [] := List.ne_nil_of_mem hmem
  have hall : (preRaw ++ sufRaw).all isHexNibble = false := by
    rw [← Bool.not_eq_true, List.all_eq_true]
    intro hforall
    have := hforall ch hmem
    rw [hch] at this
    exact Bool.false_ne_true this
  simp [buildPattern, hexTest, hne, hall]

/-- Claim C8: any pair of inputs whose concatenation contains a character
outside `[0-9a-fA-F]` is rejected by pattern construction with the InvalidHex
validation error, before any worker is started. -/
theorem nonHex_rejected (preRaw sufRaw : JStr) (cs : Bool)
    (h : ∃ ch ∈ preRaw ++ sufRaw, isHexNibble ch = false) :
    buildPattern preRaw sufRaw cs = .error .invalidHex := by
  obtain ⟨ch, hmem, hch⟩ := h
  exact buildPattern_invalidHex_of_mem hmem hch

/-- Witness for C8 at the concrete inputs `prefix = "zz"`, `suffix = ""`. -/
theorem nonHex_rejected_witness :
    (∃ ch ∈ (['z', 'z'] : JStr) ++ ([] : JStr), isHexNibble ch = false) ∧
    buildPattern ['z', 'z'] [] false = .error .invalidHex :=
  ⟨by decide, nonHex_rejected ['z', 'z'] [] false (by decide)⟩

/-- Claim C9: when both inputs are empty, pattern construction fails with the
Empty validation error, which is distinct from InvalidHex, before any worker
is started. -/
theorem emptyInputs_rejected (cs : Bool) :
    buildPattern [] [] cs = .error .empty ∧
    (Except.error ValidationError.empty : Except ValidationError PatternSpec) ≠
      .error .invalidHex := by
  cases cs <;> exact ⟨rfl, by decide⟩

/-- Helper: the ASCII lowercasing sends only `x` and `X` to `x`. -/
theorem lowerChar_eq_x {c : Char} (h : lowerChar c = 'x') : c = 'x' ∨ c = 'X' := by
  unfold lowerChar at h
  split at h <;> simp_all

/-- Helper: hex nibbles are never `x` or `X`. -/
theorem isHexNibble_ne_x {c : Char} (h : isHexNibble c = true) :
    c ≠ 'x' ∧ c ≠ 'X' := by
  constructor <;> rintro rfl <;> exact absurd h (by decide)

/-- Counterexample to claim C5 as stated: the prefix input `0xab` is not
accepted — it is rejected with InvalidHex by the hex validation (the
character `x` is outside `[0-9a-fA-F]`), and is therefore not treated the
same as the prefix `ab`, which is accepted. -/
theorem strip0x_not_accepted_cex :
    buildPattern ['0', 'x', 'a', 'b'] [] false = .error .invalidHex ∧
    buildPattern ['a', 'b'] [] false =
      .ok { pre := ['a', 'b'], suf := [], isCaseSensitive := false } := by
  constructor <;> decide

/-- Amended claim C5: the construction code does contain a strip of a leading
`0x` applied to the prefix only, but the hex validation runs first and rejects
any prefix given with a leading `0x` with InvalidHex, so such a prefix is
never accepted; consequently, on every successful construction the stored
prefix and suffix are exactly the case-normalized inputs, with nothing
stripped. -/
theorem leading0x_rejected (preRaw sufRaw : JStr) (cs : Bool) :
    ((['0', 'x'] : JStr) <+: preRaw → buildPattern preRaw sufRaw cs = .error .invalidHex) ∧
    (∀ spec, buildPattern preRaw sufRaw cs = .ok spec →
      spec.pre = (if cs then preRaw else toLowerStr preRaw) ∧
      spec.suf = (if cs then sufRaw else toLowerStr sufRaw)) := by
  constructor
  · rintro ⟨t, ht⟩
    have hmem : 'x' ∈ preRaw ++ sufRaw := by
      rw [← ht]
      simp
    exact buildPattern_invalidHex_of_mem hmem (by decide)
  · intro spec hok
    by_cases hempty : (preRaw ++ sufRaw).isEmpty
    · simp [buildPattern, hempty] at hok
    by_cases hhex : hexTest (preRaw ++ sufRaw)
    case neg => simp [buildPattern, hempty, hhex] at hok
    have hallhex : ∀ ch ∈ preRaw, isHexNibble ch = true := by
      rw [hexTest, Bool.and_eq_true, List.all_eq_true] at hhex
      exact fun ch hch => hhex.2 ch (List.mem_append_left _ hch)
    have h1 : ¬ ((['0', 'x'] : JStr) <+: preRaw) := by
      rintro ⟨t, ht⟩
      have hmem : 'x' ∈ preRaw := by
        rw [← ht]
        simp
      exact (isHexNibble_ne_x (hallhex _ hmem)).1 rfl
    have h2 : ¬ ((['0', 'x'] : JStr) <+: toLowerStr preRaw) := by
      rintro ⟨t, ht⟩
      cases preRaw with
      | nil => simp [toLowerStr] at ht
      | cons c0 tl =>
        cases tl with
        | nil => simp [toLowerStr] at ht
        | cons c1 tl2 =>
          simp only [toLowerStr, List.map_cons, List.cons_append,
            List.nil_append, List.cons.injEq] at ht
          have hx : lowerChar c1 = 'x' := ht.2.1.symm
          have hmem : c1 ∈ c0 :: c1 :: tl2 := by simp
          rcases lowerChar_eq_x hx with rfl | rfl
          · exact (isHexNibble_ne_x (hallhex _ hmem)).1 rfl
          · exact (isHexNibble_ne_x (hallhex _ hmem)).2 rfl
    have hnostrip : (['0', 'x'] : JStr).isPrefixOf
        (if cs then preRaw else toLowerStr preRaw) = false := by
      rw [← Bool.not_eq_true, List.isPrefixOf_iff_prefix]
      cases cs with
      | true => simpa using h1
      | false => simpa using h2
    simp only [buildPattern, hempty, hhex, Bool.not_true, Bool.false_eq_true,
      if_false, Bool.not_eq_true] at hok
    rw [hnostrip] at hok
    simp only [Bool.false_eq_true, if_false, Except.ok.injEq] at hok
    rw [← hok]
    exact ⟨rfl, rfl⟩

/-- Witness for the amended claim C5: the `0x`-prefixed input is rejected, and
a successfully built pattern stores the lowercased prefix verbatim. -/
theorem leading0x_rejected_witness :
    buildPattern ['0', 'x', 'a', 'b'] ['9'] false = .error .invalidHex ∧
    (PatternSpec.mk ['a', 'b'] ['9'] false).pre =
      (if false then ['A', 'b'] else toLowerStr ['A', 'b']) :=
  ⟨(leading0x_rejected ['0', 'x', 'a', 'b'] ['9'] false).1 ⟨['a', 'b'], rfl⟩,
   ((leading0x_rejected ['A', 'b'] ['9'] false).2 ⟨['a', 'b'], ['9'], false⟩ (by decide)).1⟩

/-- Claim C3: for every account and pattern spec, the worker's match decision
equals the conjunction of (prefix empty OR the normalized address starts with
`0x` followed by the stored prefix) and (suffix empty OR the normalized
address ends with the stored suffix), with starts-with and ends-with taken as
the mathematical prefix/suffix relations. -/
theorem decision_iff_matchSpec (p : PatternSpec) (a : Account) :
    decision p a = true ↔ matchSpec p a := by
  simp [decision, rawDecision, matchSpec, Bool.and_eq_true, Bool.or_eq_true,
    List.isEmpty_iff, List.isPrefixOf_iff_prefix, List.isSuffixOf_iff_suffix]

/-- Counterexample to claim C6 as stated: at `elapsed_seconds = 0` with 2000
attempts (the least total a tick handler can see), the code produces the
division result Infinity — there is no guard treating the speed as
undefined/zero. -/
theorem speed_zero_elapsed_cex :
    speedOf 2000 0 = JsNum.inf ∧ speedOf 2000 0 ≠ JsNum.fin 0 := by
  constructor <;> decide

/-- Amended claim C6: the speed statistic is computed as
`total_attempts / elapsed_seconds` with no guard for `elapsed_seconds == 0`:
for nonzero elapsed time the division result is returned, and at zero elapsed
time JavaScript division produces Infinity when attempts are positive and NaN
when the attempt total is also zero. -/
theorem speed_no_guard (n : Nat) (q : ℚ) :
    (q ≠ 0 → speedOf n q = JsNum.fin ((n : ℚ) / q)) ∧
    (0 < n → speedOf n 0 = JsNum.inf) ∧
    speedOf 0 0 = JsNum.nan := by
  refine ⟨fun hq => ?_, fun hn => ?_, ?_⟩
  · simp [speedOf, jsDiv, hq]
  · have h0 : (0 : ℚ) < (n : ℚ) := by exact_mod_cast hn
    simp [speedOf, jsDiv, h0.ne', h0]
  · simp [speedOf, jsDiv]

/-- Witness for the amended claim C6 at concrete inputs. -/
theorem speed_no_guard_witness :
    speedOf 2000 1 = JsNum.fin ((2000 : ℚ) / 1) ∧ speedOf 2000 0 = JsNum.inf :=
  ⟨(speed_no_guard 2000 1).1 (by decide), (speed_no_guard 2000 0).2.1 (by decide)⟩

/-- Claim C10: in case-insensitive mode, a matching iteration emits the
provider's original (possibly mixed-case, checksummed) address together with
the generated private key — the first message the worker posts from that
iteration carries `account.address` and `pk` unchanged, with the counter of
that iteration — while the lowercased copy is used only for the match
comparison. -/
theorem found_carries_provider_pair (p : PatternSpec) (c : Nat) (a : Account)
    (rest : List Account) (hcs : p.isCaseSensitive = false)
    (hm : decision p a = true) :
    (runWorker p c (a :: rest)).1.head? = some (Msg.found a.address a.pk (c + 1)) ∧
    decision p a = rawDecision p (toLowerStr a.address) := by
  constructor
  · by_cases hb : (c + 1) % BATCH_SIZE = 0 <;>
      simp [runWorker, workerStep, hm, hb]
  · simp [decision, normAddr, hcs]

/-- Witness for claim C10: a mixed-case address `0xAb` matches the
case-insensitive pattern `a` and is emitted in its original casing. -/
theorem found_carries_provider_pair_witness :
    (PatternSpec.mk ['a'] [] false).isCaseSensitive = false ∧
    decision (PatternSpec.mk ['a'] [] false) (Account.mk ['0', 'x', 'A', 'b'] ['k']) = true ∧
    (runWorker (PatternSpec.mk ['a'] [] false) 0
        [Account.mk ['0', 'x', 'A', 'b'] ['k']]).1.head? =
      some (Msg.found ['0', 'x', 'A', 'b'] ['k'] 1) :=
  ⟨rfl, by decide,
   (found_carries_provider_pair (PatternSpec.mk ['a'] [] false) 0
     (Account.mk ['0', 'x', 'A', 'b'] ['k']) [] rfl (by decide)).1⟩

/-- Helper: once a winner is recorded the coordinator state is absorbing —
the process has exited, so no later message is handled and no further
`on_found` event fires. -/
theorem runCoord_absorbing (msgs : List Msg) (st : CoordState) (w : JStr × JStr × Nat)
    (h : st.winner = some w) : runCoord st msgs = (st, []) := by
  induction msgs with
  | nil => rfl
  | cons m rest ih => simp [runCoord, coordStep, h, ih]

/-- Helper: draining from a winnerless state accepts exactly the first
terminal message. -/
theorem runCoord_none (msgs : List Msg) (st : CoordState) (h : st.winner = none) :
    (runCoord st msgs).2 = ((msgs.find? isFound).bind foundData).toList ∧
    (runCoord st msgs).1.winner = (msgs.find? isFound).bind foundData := by
  induction msgs generalizing st with
  | nil => simp [runCoord, h]
  | cons m rest ih =>
    cases m with
    | found a pk n =>
      have habs := runCoord_absorbing rest
        { totalCount := st.totalCount + n, winner := some (a, pk, n) } (a, pk, n) rfl
      simp [runCoord, coordStep, h, habs, List.find?_cons_of_pos, isFound, foundData]
    | tick k =>
      have := ih { totalCount := st.totalCount + k, winner := none } rfl
      simp [runCoord, coordStep, h, List.find?_cons_of_neg, isFound, this.1, this.2]

/-- Claim C1: for every drained message sequence, the coordinator accepts the
first terminal `found` message and only that one: the recorded winner is the
payload of the first `found` message, the `on_found` events fired are exactly
that single payload (none when no `found` arrives, hence at most one ever),
and any terminal messages after the first are discarded without producing a
second result. -/
theorem coordinator_accepts_first_found (msgs : List Msg) :
    (runCoord initCoord msgs).2 = ((msgs.find? isFound).bind foundData).toList ∧
    (runCoord initCoord msgs).1.winner = (msgs.find? isFound).bind foundData ∧
    (runCoord initCoord msgs).2.length ≤ 1 ∧
    ((∃ m ∈ msgs, isFound m = true) → (runCoord initCoord msgs).2.length = 1) := by
  obtain ⟨h1, h2⟩ := runCoord_none msgs initCoord rfl
  refine ⟨h1, h2, ?_, ?_⟩
  · rw [h1]
    cases (msgs.find? isFound).bind foundData <;> simp
  · rintro ⟨m, hmem, hfound⟩
    have hsome : (msgs.find? isFound).isSome := List.find?_isSome.mpr ⟨m, hmem, hfound⟩
    obtain ⟨m0, hfind⟩ := Option.isSome_iff_exists.mp hsome
    have hf : isFound m0 = true := List.find?_some hfind
    rw [h1, hfind]
    cases m0 with
    | found a pk n => simp [foundData]
    | tick k => simp [isFound] at hf

/-- Witness for claim C1: with a tick followed by two terminal messages, the
`on_found` event fires exactly once. -/
theorem coordinator_accepts_first_found_witness :
    (∃ m ∈ [Msg.tick 2000, Msg.found ['a'] ['k'] 3, Msg.found ['b'] ['k'] 4],
      isFound m = true) ∧
    (runCoord initCoord
      [Msg.tick 2000, Msg.found ['a'] ['k'] 3, Msg.found ['b'] ['k'] 4]).2.length = 1 :=
  ⟨by decide,
   (coordinator_accepts_first_found
     [Msg.tick 2000, Msg.found ['a'] ['k'] 3, Msg.found ['b'] ['k'] 4]).2.2.2 (by decide)⟩

/-- Counterexample to claim C2 as stated: a worker whose first two iterations
both match (case-insensitive pattern `a`) posts a second message after the
terminal one — a second `MatchResult` — instead of stopping after the first. -/
theorem worker_double_report_cex :
    (runWorker (PatternSpec.mk ['a'] [] false) 0
      [Account.mk ['0', 'x', 'A', 'b'] ['k', '1'],
       Account.mk ['0', 'x', 'a', 'B'] ['k', '2']]).1 =
      [Msg.found ['0', 'x', 'A', 'b'] ['k', '1'] 1,
       Msg.found ['0', 'x', 'a', 'B'] ['k', '2'] 2] := by
  decide

/-- Amended claim C2: a worker emits a `MatchResult` for every matching
iteration — carrying that iteration's original address and private key — and
does not stop on its own after the first match: it keeps looping (emitting
batch ticks and further `MatchResult`s) until externally terminated, so the
found messages it posts correspond exactly, in order, to its matching
iterations; uniqueness of the accepted result is enforced by the coordinator,
not by the worker. -/
theorem worker_reports_every_match (p : PatternSpec) (c : Nat) (l : List Account) :
    ((runWorker p c l).1.filterMap foundAddrPk) =
      (l.filter (fun a => decision p a)).map (fun a => (a.address, a.pk)) := by
  induction l generalizing c with
  | nil => simp [runWorker]
  | cons a rest ih =>
    by_cases hd : decision p a = true <;>
      by_cases hb : (c + 1) % BATCH_SIZE = 0 <;>
        simp [runWorker, workerStep, hd, hb, List.filterMap_append, foundAddrPk,
          List.filter_cons, ih]

/-- Helper: the worker loop over `n` non-matching iterations starting from a
local counter `c < BATCH_SIZE` posts exactly `(c + n) / BATCH_SIZE` ticks of
`BATCH_SIZE` each and ends with counter `(c + n) % BATCH_SIZE`. -/
theorem runWorker_no_match (p : PatternSpec) (l : List Account)
    (h : ∀ a ∈ l, decision p a = false) :
    ∀ c : Nat, c < BATCH_SIZE →
      runWorker p c l =
        (List.replicate ((c + l.length) / BATCH_SIZE) (Msg.tick BATCH_SIZE),
          (c + l.length) % BATCH_SIZE) := by
  induction l with
  | nil =>
    intro c hc
    simp [runWorker, Nat.div_eq_of_lt hc, Nat.mod_eq_of_lt hc]
  | cons a rest ih =>
    intro c hc
    have hda : decision p a = false := h a (List.mem_cons_self a rest)
    have hrest : ∀ x ∈ rest, decision p x = false :=
      fun x hx => h x (List.mem_cons_of_mem _ hx)
    rcases Nat.lt_or_ge (c + 1) BATCH_SIZE with h1 | h1
    · have hmod : ¬((c + 1) % BATCH_SIZE = 0) := by
        rw [Nat.mod_eq_of_lt h1]
        omega
      have harith : c + 1 + rest.length = c + (rest.length + 1) := by omega
      simp [runWorker, workerStep, hda, hmod, ih hrest (c + 1) h1, harith]
    · have heq : c + 1 = BATCH_SIZE := by omega
      have hmod : (c + 1) % BATCH_SIZE = 0 := by
        rw [heq, Nat.mod_self]
      have h0 : 0 < BATCH_SIZE := by decide
      have harith : c + (rest.length + 1) = rest.length + BATCH_SIZE := by omega
      simp only [runWorker, workerStep, hda, Bool.false_eq_true, if_false,
        List.nil_append, hmod, if_true, ih hrest 0 h0, List.length_cons, harith,
        Nat.add_div_right _ h0, Nat.add_mod_right, Nat.zero_add,
        List.replicate_succ, List.singleton_append]

/-- Claim C4: a worker that never matches over `n` iterations posts exactly
`⌊n / 2000⌋` ticks, each carrying exactly `BATCH_SIZE = 2000`, with no tick
for the partial remainder, and its local counter — reset to zero at every
batch boundary — ends at `n % 2000`. -/
theorem worker_tick_schedule (p : PatternSpec) (l : List Account)
    (h : ∀ a ∈ l, decision p a = false) :
    runWorker p 0 l =
      (List.replicate (l.length / BATCH_SIZE) (Msg.tick BATCH_SIZE),
        l.length % BATCH_SIZE) := by
  have := runWorker_no_match p l h 0 (by decide)
  simpa using this

/-- Witness for claim C4: one non-matching iteration posts no message and
leaves the counter at 1. -/
theorem worker_tick_schedule_witness :
    (∀ a ∈ [Account.mk ['0', 'x', 'b', 'b'] ['k']],
      decision (PatternSpec.mk ['a'] [] false) a = false) ∧
    runWorker (PatternSpec.mk ['a'] [] false) 0 [Account.mk ['0', 'x', 'b', 'b'] ['k']] =
      (List.replicate (([Account.mk ['0', 'x', 'b', 'b'] ['k']] : List Account).length /
        BATCH_SIZE) (Msg.tick BATCH_SIZE),
        ([Account.mk ['0', 'x', 'b', 'b'] ['k']] : List Account).length % BATCH_SIZE) :=
  ⟨by decide,
   worker_tick_schedule (PatternSpec.mk ['a'] [] false)
     [Account.mk ['0', 'x', 'b', 'b'] ['k']] (by decide)⟩

/-- Claim C7: for a fixed pattern difficulty, the displayed probability
equals `1 - exp(-total_attempts / difficulty)` clamped to at most `0.9999`
(the clamp replaces any larger computed value), it is non-decreasing in
`total_attempts`, never exceeds `0.9999`, and in particular never equals 1. -/
theorem probability_clamped_monotone (p : PatternSpec) (n m : Nat) (h : n ≤ m) :
    probOf (difficulty p) n =
      min (1 - Real.exp (-((n : ℝ) / difficulty p))) 0.9999 ∧
    probOf (difficulty p) n ≤ probOf (difficulty p) m ∧
    probOf (difficulty p) n ≤ 0.9999 ∧
    probOf (difficulty p) n < 1 := by
  have hd : (0 : ℝ) < difficulty p := by
    unfold difficulty
    positivity
  have hmin : ∀ k : Nat, probOf (difficulty p) k =
      min (1 - Real.exp (-((k : ℝ) / difficulty p))) 0.9999 := by
    intro k
    unfold probOf
    split_ifs with hgt
    · rw [min_eq_right]
      linarith
    · rw [min_eq_left]
      linarith
  have hmono : (1 : ℝ) - Real.exp (-((n : ℝ) / difficulty p)) ≤
      1 - Real.exp (-((m : ℝ) / difficulty p)) := by
    have hnm : (n : ℝ) ≤ (m : ℝ) := Nat.cast_le.mpr h
    have hdiv : (n : ℝ) / difficulty p ≤ (m : ℝ) / difficulty p := by gcongr
    have := Real.exp_le_exp.mpr (neg_le_neg hdiv)
    linarith
  refine ⟨hmin n, ?_, ?_, ?_⟩
  · rw [hmin n, hmin m]
    exact min_le_min hmono le_rfl
  · rw [hmin n]
    exact min_le_right _ _
  · rw [hmin n]
    have := min_le_right (1 - Real.exp (-((n : ℝ) / difficulty p))) (0.9999 : ℝ)
    linarith

/-- Witness for claim C7 at the concrete one-nibble pattern `a` and attempt
totals 1 ≤ 2. -/
theorem probability_clamped_monotone_witness :
    1 ≤ 2 ∧ probOf (difficulty (PatternSpec.mk ['a'] [] false)) 1 < 1 :=
  ⟨by decide,
   (probability_clamped_monotone (PatternSpec.mk ['a'] [] false) 1 2 (by decide)).2.2.2⟩

end EvmVanity
